import Mathlib

/-!
Shallow embedding of `src/c++/src/kj/logging.c++` (capnproto, 2013 era):
the diagnostic-description builder `makeDescription`, the `Log::Fault`
lifecycle, and the `Log::Context` chain.  Strings are `List Char` (C strings
without the terminating NUL); the `uint depth` counter is modelled modulo
2^32; the platform error-text lookup (`strerror_r`) is an explicit function
parameter.
-/

namespace kj

/-- C `isspace` on the standard whitespace characters (C locale). -/
def isSpaceC (c : Char) : Bool :=
  c == ' ' || c == '\t' || c == '\n' || c == '\x0b' || c == '\x0c' || c == '\r'

/-- 2^32, the modulus of the C `uint` used for the paren-nesting `depth`. -/
def U32 : Nat := 4294967296

/-- Result of the argument-name scan (lines 59-99): `segCount` is the final
value of `index` (the number of top-level segments seen), `names` the spans
actually recorded into `argNames`. -/
structure ScanResult where
  segCount : Nat
  names : List (List Char)
  deriving DecidableEq, Repr

/-- The scanning loop of `makeDescription` (logging.c++ lines 62-93), one
character per step.  `skipping` models the inner `while (isspace(*pos))
++pos;` loops (line 62 for the leading whitespace, line 85 after each split
point): while set, space characters are consumed without entering the
current segment.  `esc` models the `++pos` of line 69: the previous
character was an unconsumed backslash inside quotes, so the current
character is consumed without interpretation (in particular a quote does
not end quoted mode).  `cur` is the reversed accumulator for the characters
between the C pointers `start` and `pos`.  `depth` is a C `uint`, kept
modulo 2^32 so that a stray `)` at depth 0 wraps exactly as the C code's
`--depth` does (and commas afterwards no longer split). -/
def scanLoop (nvals : Nat) : List Char → Nat → Bool → Bool → Bool → List Char → Nat →
    List (List Char) → ScanResult
  | [], _depth, _quoted, _skipping, _esc, cur, index, names =>
    { segCount := index + 1,
      names := if index < nvals then names ++ [cur.reverse] else names }
  | c :: rest, depth, quoted, skipping, esc, cur, index, names =>
    if skipping && isSpaceC c then
      scanLoop nvals rest depth quoted true false cur index names
    else if esc then
      scanLoop nvals rest depth quoted false false (c :: cur) index names
    else if quoted then
      if c = '\\' ∧ rest ≠ [] then
        scanLoop nvals rest depth true false true (c :: cur) index names
      else if c = '\"' then
        scanLoop nvals rest depth false false false (c :: cur) index names
      else
        scanLoop nvals rest depth true false false (c :: cur) index names
    else
      if c = '(' then
        scanLoop nvals rest ((depth + 1) % U32) quoted false false (c :: cur) index names
      else if c = ')' then
        scanLoop nvals rest ((depth + (U32 - 1)) % U32) quoted false false (c :: cur) index names
      else if c = '\"' then
        scanLoop nvals rest depth true false false (c :: cur) index names
      else if c = ',' ∧ depth = 0 then
        scanLoop nvals rest depth quoted true false []
          (index + 1) (if index < nvals then names ++ [cur.reverse] else names)
      else
        scanLoop nvals rest depth quoted false false (c :: cur) index names

/-- The argument-name parse of `makeDescription` (lines 59-99): runs only
when there is at least one argument value; starts in whitespace-skipping
mode with `depth = 0`, unquoted, empty segment, `index = 0`. -/
def parseArgNames (macroArgs : List Char) (nvals : Nat) : ScanResult :=
  if nvals = 0 then { segCount := 0, names := [] }
  else scanLoop nvals macroArgs 0 false true false [] 0 []

/-- The `argNames` stack array of `makeDescription`: recorded spans, with the
unwritten slots left as default-constructed (empty) `ArrayPtr`s. -/
def argNames (macroArgs : List Char) (nvals : Nat) : List (List Char) :=
  (parseArgNames macroArgs nvals).names ++
    List.replicate (nvals - (parseArgNames macroArgs nvals).names.length) []

/-- The `DescriptionStyle` enum (logging.c++ lines 49-53). -/
inductive DescriptionStyle where
  | LOG
  | ASSERTION
  | SYSCALL
  deriving DecidableEq, Repr

/-- Suffix of the character list after its first `'='`, if any; models
`strchr(code, '=')` (line 107): `some rest` means an `'='` was found with
`rest` the characters after it. -/
def findEq : List Char → Option (List Char)
  | [] => none
  | c :: rest => if c = '=' then some rest else findEq rest

/-- The SYSCALL code preprocessing (lines 102-112): if `code` contains an
`'='` whose immediately following character is not another `'='` (the C code
checks `equalsPos[1] != '='`, where the character after a final `'='` is the
NUL terminator), drop everything up to and including that `'='` and then the
following whitespace; otherwise leave `code` unchanged. -/
def sysPreprocess (code : List Char) : List Char :=
  match findEq code with
  | none => code
  | some after => if after.head? = some '=' then code else after.dropWhile isSpaceC

/-- `code` after the style-specific preprocessing: only SYSCALL strips the
assignment head (lines 102-112).  `none` models a null `const char*`. -/
def strippedCode (style : DescriptionStyle) (code : Option (List Char)) :
    Option (List Char) :=
  if style = DescriptionStyle.SYSCALL then code.map sysPreprocess else code

/-- The style actually used for rendering: ASSERTION with a null `code`
silently degrades to LOG (lines 114-116). -/
def effStyle (style : DescriptionStyle) (code : Option (List Char)) : DescriptionStyle :=
  if style = DescriptionStyle.ASSERTION ∧ code = none then DescriptionStyle.LOG
  else style

/-- `StringPtr codeArray = style == LOG ? nullptr : StringPtr(code);`
(line 120): the null `StringPtr` is empty. -/
def codeArray (style2 : DescriptionStyle) (code2 : Option (List Char)) : List Char :=
  if style2 = DescriptionStyle.LOG then [] else code2.getD []

/-- `sysErrorArray` (lines 125-137): the platform error text for
`errorNumber` when the style is SYSCALL, empty otherwise.  The platform
lookup `strerror_r` is the explicit parameter `f`. -/
def sysErrorArray (style2 : DescriptionStyle) (errorNumber : Int)
    (f : Int → List Char) : List Char :=
  if style2 = DescriptionStyle.SYSCALL then f errorNumber else []

/-- `"expected "` (line 119). -/
def expectedStr : List Char := "expected ".data

/-- `" = "` (line 121). -/
def sepStr : List Char := " = ".data

/-- `"; "` (line 122). -/
def delimStr : List Char := "; ".data

/-- `": "` (line 123). -/
def colonStr : List Char := ": ".data

/-- The test `argNames[i].size() > 0 && argNames[i][0] != '\"'` (lines 155
and 178) deciding whether argument `i` is rendered with a `name = ` head. -/
def nameShown : List Char → Bool
  | [] => false
  | c :: _ => c != '\"'

/-- Size contributed by argument `i` in the sizing pass (lines 151-159). -/
def argPieceSize (style2 : DescriptionStyle) (i : Nat) (name value : List Char) : Nat :=
  (if 0 < i ∨ style2 ≠ DescriptionStyle.LOG then delimStr.length else 0) +
    (if nameShown name then name.length + sepStr.length else 0) + value.length

/-- Characters written for argument `i` in the fill pass (lines 174-182). -/
def argPiece (style2 : DescriptionStyle) (i : Nat) (name value : List Char) : List Char :=
  (if 0 < i ∨ style2 ≠ DescriptionStyle.LOG then delimStr else []) ++
    ((if nameShown name then name ++ sepStr else []) ++ value)

/-- Size contributed by the style-specific head in the sizing pass
(lines 139-149). -/
def headSize (style2 : DescriptionStyle) (codeArr sysErr : List Char) : Nat :=
  match style2 with
  | DescriptionStyle.LOG => 0
  | DescriptionStyle.ASSERTION => expectedStr.length + codeArr.length
  | DescriptionStyle.SYSCALL => codeArr.length + colonStr.length + sysErr.length

/-- Characters written for the style-specific head in the fill pass
(lines 164-173). -/
def headText (style2 : DescriptionStyle) (codeArr sysErr : List Char) : List Char :=
  match style2 with
  | DescriptionStyle.LOG => []
  | DescriptionStyle.ASSERTION => expectedStr ++ codeArr
  | DescriptionStyle.SYSCALL => codeArr ++ (colonStr ++ sysErr)

/-- The sizing pass of `makeDescription` (lines 139-159): the `totalSize`
passed to `heapString`. -/
def descSize (style : DescriptionStyle) (code : Option (List Char)) (errorNumber : Int)
    (macroArgs : List Char) (argValues : List (List Char)) (f : Int → List Char) : Nat :=
  let style2 := effStyle style code
  let ca := codeArray style2 (strippedCode style code)
  let se := sysErrorArray style2 errorNumber f
  let names := argNames macroArgs argValues.length
  headSize style2 ca se +
    ((List.range argValues.length).map fun i =>
      argPieceSize style2 i (names.getD i []) (argValues.getD i [])).sum

/-- The fill pass of `makeDescription` (lines 161-184): the characters
written sequentially into the allocated string. -/
def descText (style : DescriptionStyle) (code : Option (List Char)) (errorNumber : Int)
    (macroArgs : List Char) (argValues : List (List Char)) (f : Int → List Char) :
    List Char :=
  let style2 := effStyle style code
  let ca := codeArray style2 (strippedCode style code)
  let se := sysErrorArray style2 errorNumber f
  let names := argNames macroArgs argValues.length
  headText style2 ca se ++
    ((List.range argValues.length).map fun i =>
      argPiece style2 i (names.getD i []) (argValues.getD i [])).flatten

/-- The secondary diagnostic emitted via `getExceptionCallback().logMessage`
on a parse-count mismatch (lines 95-99): its data is the source file and
line of the `str(...)` call, the expected name count, and the raw macro-args
text. -/
structure ParseDiag where
  file : List Char
  line : Nat
  expectedCount : Nat
  rawText : List Char
  deriving DecidableEq, Repr

/-- Full result of `makeDescription`: the built string, plus the mismatch
diagnostic (sent to the active exception callback) if any.  The diagnostic
fires only when there is at least one argument value and the final `index`
differs from `argValues.size()` (lines 59, 95-99). -/
structure DescResult where
  text : List Char
  diag : Option ParseDiag
  deriving DecidableEq, Repr

/-- `makeDescription` (logging.c++ lines 55-186). -/
def makeDescription (style : DescriptionStyle) (code : Option (List Char))
    (errorNumber : Int) (macroArgs : List Char) (argValues : List (List Char))
    (f : Int → List Char) : DescResult :=
  { text := descText style code errorNumber macroArgs argValues f,
    diag :=
      if 0 < argValues.length ∧
          (parseArgNames macroArgs argValues.length).segCount ≠ argValues.length then
        some { file := "logging.c++".data, line := 97,
               expectedCount := argValues.length, rawText := macroArgs }
      else none }

/-- `Exception::Nature` as used in logging.c++ (line 217): only
`OS_ERROR` (selecting SYSCALL style) versus the regular kinds matter here. -/
inductive Nature where
  | PRECONDITION
  | LOCAL_BUG
  | OS_ERROR
  deriving DecidableEq, Repr

/-- `Exception::Durability` (line 216): faults are always raised
`PERMANENT`. -/
inductive Durability where
  | PERMANENT
  | TEMPORARY
  deriving DecidableEq, Repr

/-- One context annotation attached to an exception by
`Exception::wrapContext(file, line, description)`. -/
structure ContextAnn where
  file : List Char
  line : Int
  description : List Char
  deriving DecidableEq, Repr

/-- The `kj::Exception` value as logging.c++ uses it: nature, durability,
origin file/line, description, and the ordered context annotations. -/
structure Exception where
  nature : Nature
  durability : Durability
  file : List Char
  line : Int
  description : List Char
  contexts : List ContextAnn
  deriving DecidableEq, Repr

/-- Modelled from the spec: `Exception::wrapContext` is implemented in
exception.c++, which is not under src/; the spec states that context
annotations "are appended (never removed) as it propagates through Context
Chain links". -/
def Exception.wrapContext (e : Exception) (file : List Char) (line : Int)
    (description : List Char) : Exception :=
  { e with contexts := e.contexts ++ [{ file := file, line := line,
                                        description := description }] }

/-- One call made on the currently active exception callback (the sink
returned by `getExceptionCallback()`), plus process termination. -/
inductive SinkEvent where
  | recoverable (e : Exception)
  | fatalExc (e : Exception)
  | logged (t : List Char)
  | aborted
  deriving DecidableEq, Repr

/-- `Log::Fault`: holds the owned exception, or `none` once the exception
has been moved out (`exception == nullptr`). -/
structure Fault where
  exception : Option Exception
  deriving DecidableEq, Repr

/-- `Log::Fault::~Fault` (lines 197-203) as the list of calls it makes on
the active exception callback: if the exception is still held, move it out
and forward it as recoverable; otherwise do nothing. -/
def Fault.destructEvents (f : Fault) : List SinkEvent :=
  match f.exception with
  | some e => [SinkEvent.recoverable e]
  | none => []

/-- Outcome of `Log::Fault::fatal`: the calls made on the active callback
(in order, ending with process termination) and whether control returns to
the caller. -/
structure FatalRun where
  events : List SinkEvent
  returnsToCaller : Bool
  deriving DecidableEq, Repr

/-- `Log::Fault::fatal` (lines 205-211): moves the exception out, forwards
it to the callback's fatal path, then calls `abort()`, modelled as the
terminal `aborted` event with no return of control.  Calling `fatal()` on a
defused Fault dereferences a null pointer in the C++ (undefined behavior);
that case is modelled as emitting nothing. -/
def Fault.fatalRun (f : Fault) : FatalRun :=
  match f.exception with
  | some e => { events := [SinkEvent.fatalExc e, SinkEvent.aborted],
                returnsToCaller := false }
  | none => { events := [], returnsToCaller := false }

/-- The per-node data of a `Log::Context`: its source position and the
macro-args text and values used by `addTo` to build the annotation message
(`Log::addContextToInternal`, lines 221-224). -/
structure ContextFrame where
  file : List Char
  line : Int
  macroArgs : List Char
  argValues : List (List Char)
  deriving DecidableEq, Repr

/-- A constructed `Log::Context` node: its own frame plus the exception
callback captured at construction time as its successor.  Modelled from the
spec where needed: the active-callback registration lives in the headers
(not under src/); the spec says each node captures the previously active
chain head as its successor and the chain is an explicit stack, so the
successor is represented as the stack of frames active below this node. -/
structure Context where
  frame : ContextFrame
  next : List ContextFrame
  deriving DecidableEq, Repr

/-- `Log::Context::Context(): next(getExceptionCallback()), ...` (line 231):
capture the currently active callback chain as the new node's successor. -/
def Context.construct (active : List ContextFrame) (frame : ContextFrame) : Context :=
  { frame := frame, next := active }

/-- `Log::addContextToInternal` (lines 221-224): wrap the exception with
this node's file, line, and a LOG-style builder-produced message.  (The
mismatch diagnostic of `makeDescription`, if any, goes to the sink, not into
the annotation, so only the built text is used here.) -/
def ContextFrame.addTo (c : ContextFrame) (e : Exception) : Exception :=
  Exception.wrapContext e c.file c.line
    (descText DescriptionStyle.LOG none 0 c.macroArgs c.argValues fun _ => [])

/-- `Log::Context::onRecoverableException` (lines 234-237): annotate, then
forward — modelled as the pair (successor the call is forwarded to,
exception value passed along). -/
def Context.onRecoverableException (c : Context) (e : Exception) :
    List ContextFrame × Exception :=
  (c.next, c.frame.addTo e)

/-- `Log::Context::onFatalException` (lines 238-241): annotate, then
forward. -/
def Context.onFatalException (c : Context) (e : Exception) :
    List ContextFrame × Exception :=
  (c.next, c.frame.addTo e)

/-- `Log::Context::logMessage` (lines 242-246): forward the text to the
successor unchanged. -/
def Context.logMessage (c : Context) (t : List Char) :
    List ContextFrame × List Char :=
  (c.next, t)

/-- A character that is inert for the top-level scan: not a parenthesis,
not a double quote, not a comma. -/
def plainChar (c : Char) : Bool :=
  c != '(' && c != ')' && c != '\"' && c != ','

/-- The list is nonempty and its first character is not whitespace. -/
def headNonSpace : List Char → Bool
  | [] => false
  | c :: _ => !(isSpaceC c)

/-- A well-formed top-level argument for the no-nesting/no-quoting case:
`(lead, expr, trail)` with whitespace-only `lead` and `trail` and an
expression made of inert characters starting with a non-space. -/
def wfArg (a : List Char × List Char × List Char) : Prop :=
  (∀ c ∈ a.1, isSpaceC c = true) ∧ (∀ c ∈ a.2.1, plainChar c = true) ∧
    headNonSpace a.2.1 = true ∧ (∀ c ∈ a.2.2, isSpaceC c = true)

/-- The comma-separated argument-list text built from `(lead, expr, trail)`
triples. -/
def argText : List (List Char × List Char × List Char) → List Char
  | [] => []
  | [a] => a.1 ++ a.2.1 ++ a.2.2
  | a :: rest => a.1 ++ a.2.1 ++ a.2.2 ++ ',' :: argText rest

instance wfArgDec : DecidablePred wfArg := fun a =>
  decidable_of_iff ((∀ c ∈ a.1, isSpaceC c = true) ∧ (∀ c ∈ a.2.1, plainChar c = true) ∧
    headNonSpace a.2.1 = true ∧ (∀ c ∈ a.2.2, isSpaceC c = true)) (by rw [wfArg])

/-- A sample exception value used to instantiate lifecycle facts. -/
def sampleExc : Exception :=
  { nature := Nature.PRECONDITION, durability := Durability.PERMANENT,
    file := [], line := 0, description := [], contexts := [] }

theorem plainChar_of_isSpaceC {c : Char} (h : isSpaceC c = true) : plainChar c = true := by
  simp only [isSpaceC, Bool.or_eq_true, beq_iff_eq] at h
  rcases h with ((((h | h) | h) | h) | h) | h <;> subst h <;> rfl

/-- In whitespace-skipping mode the scanner consumes a whitespace run
without changing any other state (the inner loops at lines 62 and 85). -/
theorem scanLoop_skip (nvals : Nat) (lead : List Char)
    (h : ∀ c ∈ lead, isSpaceC c = true) (rest : List Char) (depth : Nat)
    (quoted : Bool) (cur : List Char) (index : Nat) (names : List (List Char)) :
    scanLoop nvals (lead ++ rest) depth quoted true false cur index names =
      scanLoop nvals rest depth quoted true false cur index names := by
  induction lead with
  | nil => rfl
  | cons c l ih =>
    have hc : isSpaceC c = true := h c (List.mem_cons_self c l)
    rw [List.cons_append, scanLoop.eq_2, hc]
    simp only [Bool.and_true, if_true, if_pos rfl]
    exact ih (fun c hm => h c (List.mem_cons_of_mem _ hm))

/-- Whitespace-skipping mode ends at the first non-space character, which is
then processed as usual. -/
theorem scanLoop_skipStop (nvals : Nat) (c : Char) (rest : List Char) (depth : Nat)
    (quoted : Bool) (cur : List Char) (index : Nat) (names : List (List Char))
    (h : isSpaceC c = false) :
    scanLoop nvals (c :: rest) depth quoted true false cur index names =
      scanLoop nvals (c :: rest) depth quoted false false cur index names := by
  rw [scanLoop.eq_2, scanLoop.eq_2, h]
  simp only [Bool.and_false, Bool.false_and, Bool.true_and, if_false]

/-- At depth 0, unquoted, an inert character is simply appended to the
current segment. -/
theorem scanLoop_plain_step (nvals : Nat) (c : Char) (rest : List Char)
    (cur : List Char) (index : Nat) (names : List (List Char))
    (hc : plainChar c = true) :
    scanLoop nvals (c :: rest) 0 false false false cur index names =
      scanLoop nvals rest 0 false false false (c :: cur) index names := by
  simp only [plainChar, Bool.and_eq_true, bne_iff_ne] at hc
  obtain ⟨⟨⟨h1, h2⟩, h3⟩, h4⟩ := hc
  rw [scanLoop.eq_2]
  simp only [Bool.false_and, if_false, if_neg h1, if_neg h3]
  rw [if_neg (by simp : ¬(false = true)), if_neg (by simp : ¬(false = true))]
  rw [if_neg h2]
  simp [h4]

/-- At depth 0, unquoted, a run of inert characters is appended to the
current segment wholesale. -/
theorem scanLoop_plain (nvals : Nat) (e : List Char)
    (he : ∀ c ∈ e, plainChar c = true) (rest : List Char) (cur : List Char)
    (index : Nat) (names : List (List Char)) :
    scanLoop nvals (e ++ rest) 0 false false false cur index names =
      scanLoop nvals rest 0 false false false (e.reverse ++ cur) index names := by
  induction e generalizing cur with
  | nil => rfl
  | cons c l ih =>
    rw [List.cons_append, scanLoop_plain_step _ _ _ _ _ _ (he c (List.mem_cons_self c l))]
    rw [ih (fun c hm => he c (List.mem_cons_of_mem _ hm)) (c :: cur)]
    simp [List.append_assoc]

/-- The comma split at depth 0, unquoted (lines 80-87): record the current
segment (when a slot remains), bump `index`, clear the segment, and enter
whitespace-skipping mode. -/
theorem scanLoop_comma (nvals : Nat) (rest : List Char) (cur : List Char)
    (index : Nat) (names : List (List Char)) :
    scanLoop nvals (',' :: rest) 0 false false false cur index names =
      scanLoop nvals rest 0 false true false []
        (index + 1) (if index < nvals then names ++ [cur.reverse] else names) := by
  rfl

/-- Scanning one whole well-formed argument: skip its leading whitespace,
then accumulate expression and trailing whitespace as the segment. -/
theorem scanLoop_arg_run (nvals : Nat) (a : List Char × List Char × List Char)
    (hw : wfArg a) (rest : List Char) (index : Nat) (names : List (List Char)) :
    scanLoop nvals ((a.1 ++ a.2.1 ++ a.2.2) ++ rest) 0 false true false [] index names =
      scanLoop nvals rest 0 false false false ((a.2.1 ++ a.2.2).reverse) index names := by
  obtain ⟨lead, e, trail⟩ := a
  obtain ⟨hl, he, hh, ht⟩ := hw
  simp only at hl he hh ht ⊢
  cases e with
  | nil => exact absurd hh (by simp [headNonSpace])
  | cons c e2 =>
    have hcs : isSpaceC c = false := by
      rw [headNonSpace] at hh
      simpa using hh
    have hplain : ∀ x ∈ (c :: e2) ++ trail, plainChar x = true := by
      intro x hx
      rcases List.mem_append.mp hx with hx | hx
      · exact he x hx
      · exact plainChar_of_isSpaceC (ht x hx)
    calc scanLoop nvals ((lead ++ (c :: e2) ++ trail) ++ rest) 0 false true false [] index names
        = scanLoop nvals (lead ++ (((c :: e2) ++ trail) ++ rest)) 0 false true false [] index names := by
          simp [List.append_assoc]
      _ = scanLoop nvals (((c :: e2) ++ trail) ++ rest) 0 false true false [] index names := by
          rw [scanLoop_skip _ _ hl]
      _ = scanLoop nvals (c :: (e2 ++ trail ++ rest)) 0 false true false [] index names := by
          simp [List.append_assoc]
      _ = scanLoop nvals (c :: (e2 ++ trail ++ rest)) 0 false false false [] index names := by
          rw [scanLoop_skipStop _ _ _ _ _ _ _ _ hcs]
      _ = scanLoop nvals (((c :: e2) ++ trail) ++ rest) 0 false false false [] index names := by
          simp [List.append_assoc]
      _ = scanLoop nvals rest 0 false false false (((c :: e2) ++ trail).reverse ++ []) index names := by
          rw [scanLoop_plain _ _ hplain]
      _ = scanLoop nvals rest 0 false false false (((c :: e2) ++ trail).reverse) index names := by
          rw [List.append_nil]

/-- Scanning a whole well-formed no-nesting/no-quoting argument list: one
segment per argument, each recorded as expression plus trailing
whitespace. -/
theorem scanLoop_args (nvals : Nat) (args : List (List Char × List Char × List Char))
    (hw : ∀ a ∈ args, wfArg a) (hne : args ≠ []) (index : Nat)
    (names : List (List Char)) (hle : index + args.length ≤ nvals) :
    scanLoop nvals (argText args) 0 false true false [] index names =
      { segCount := index + args.length,
        names := names ++ args.map fun a => a.2.1 ++ a.2.2 } := by
  induction args generalizing index names with
  | nil => exact absurd rfl hne
  | cons a rest ih =>
    have hwa : wfArg a := hw a (List.mem_cons_self a rest)
    cases rest with
    | nil =>
      rw [show argText [a] = (a.1 ++ a.2.1 ++ a.2.2) ++ [] by simp [argText]]
      rw [scanLoop_arg_run nvals a hwa]
      rw [scanLoop.eq_1]
      have hlt : index < nvals := by simpa using hle
      simp [hlt]
    | cons b rest2 =>
      rw [show argText (a :: b :: rest2) = (a.1 ++ a.2.1 ++ a.2.2) ++ (',' :: argText (b :: rest2)) by
        simp [argText, List.append_assoc]]
      rw [scanLoop_arg_run nvals a hwa]
      rw [scanLoop_comma]
      have hlt : index < nvals := by
        have : 1 ≤ (a :: b :: rest2).length := by simp
        omega
      rw [if_pos hlt]
      rw [ih (fun x hx => hw x (List.mem_cons_of_mem _ hx)) (by simp)
        (index + 1) (names ++ [(a.2.1 ++ a.2.2).reverse.reverse]) (by simp at hle ⊢; omega)]
      simp [List.append_assoc]
      omega


theorem findEq_not_mem {code : List Char} (h : '=' ∉ code) : findEq code = none := by
  induction code with
  | nil => rfl
  | cons c l ih =>
    rw [List.mem_cons] at h
    push_neg at h
    rw [findEq, if_neg (fun hc => h.1 hc.symm)]
    exact ih h.2

theorem findEq_append {a : List Char} (l : List Char) (h : '=' ∉ a) :
    findEq (a ++ l) = findEq l := by
  induction a with
  | nil => rfl
  | cons c a2 ih =>
    rw [List.mem_cons] at h
    push_neg at h
    rw [List.cons_append, findEq, if_neg (fun hc => h.1 hc.symm)]
    exact ih h.2

theorem getD_replicate_nil (k i : Nat) : (List.replicate k ([] : List Char)).getD i [] = [] := by
  induction k generalizing i with
  | zero => cases i <;> rfl
  | succ k ih =>
    cases i with
    | zero => rfl
    | succ j =>
      rw [List.replicate_succ, List.getD_cons_succ]
      exact ih j

theorem getD_pad (xs : List (List Char)) (k i : Nat) (hi : xs.length ≤ i) :
    (xs ++ List.replicate k ([] : List Char)).getD i [] = [] := by
  induction xs generalizing i with
  | nil =>
    rw [List.nil_append]
    exact getD_replicate_nil k i
  | cons x xs ih =>
    cases i with
    | zero => simp at hi
    | succ j =>
      simp only [List.cons_append, List.getD_cons_succ]
      exact ih j (by simpa using hi)

theorem headText_length (st : DescriptionStyle) (ca se : List Char) :
    (headText st ca se).length = headSize st ca se := by
  cases st with
  | LOG => rfl
  | ASSERTION => simp [headText, headSize]
  | SYSCALL =>
    simp [headText, headSize]
    omega

theorem argPiece_length (st : DescriptionStyle) (i : Nat) (n v : List Char) :
    (argPiece st i n v).length = argPieceSize st i n v := by
  rw [argPiece, argPieceSize]
  split_ifs <;> simp <;> omega

/-- Claim C1 -/
theorem claim1_split_points :
    (∀ (nvals : Nat) (rest cur : List Char) (index : Nat) (names : List (List Char)),
      scanLoop nvals (',' :: rest) 0 false false false cur index names =
        scanLoop nvals rest 0 false true false []
          (index + 1) (if index < nvals then names ++ [cur.reverse] else names)) ∧
    (∀ (nvals depth : Nat) (rest cur : List Char) (index : Nat) (names : List (List Char)),
      depth ≠ 0 →
      scanLoop nvals (',' :: rest) depth false false false cur index names =
        scanLoop nvals rest depth false false false (',' :: cur) index names) ∧
    (∀ (nvals depth : Nat) (rest cur : List Char) (index : Nat) (names : List (List Char)),
      scanLoop nvals (',' :: rest) depth true false false cur index names =
        scanLoop nvals rest depth true false false (',' :: cur) index names) ∧
    (∀ (nvals depth : Nat) (c : Char) (rest cur : List Char) (index : Nat)
        (names : List (List Char)),
      scanLoop nvals ('\\' :: c :: rest) depth true false false cur index names =
        scanLoop nvals rest depth true false false (c :: '\\' :: cur) index names) ∧
    (parseArgNames "f(a, b), c".data 2).names = ["f(a, b)".data, "c".data] ∧
    (parseArgNames "\"a,b\", c".data 2).names = ["\"a,b\"".data, "c".data] ∧
    (parseArgNames "\"a\\\"b\", c".data 2).names = ["\"a\\\"b\"".data, "c".data] := by
  refine ⟨fun nvals rest cur index names => rfl, ?_,
    fun nvals depth rest cur index names => rfl,
    fun nvals depth c rest cur index names => rfl, by decide, by decide, by decide⟩
  intro nvals depth rest cur index names h
  rw [scanLoop.eq_2]
  simp [h]

theorem claim1_witness :
    scanLoop 2 [','] 1 false false false ['a'] 0 [] =
      scanLoop 2 [] 1 false false false [',', 'a'] 0 [] :=
  claim1_split_points.2.1 2 1 [] ['a'] 0 [] (by decide)

/-- Claim C2 counterexample -/
theorem claim2_counterexample :
    (makeDescription DescriptionStyle.LOG none 0 "a , b".data [['1'], ['2']]
        (fun _ => [])).text = "a  = 1; b = 2".data ∧
    "a  = 1; b = 2".data ≠ "a = 1; b = 2".data ∧
    (parseArgNames "a , b".data 2).names = [['a', ' '], ['b']] ∧
    ([['a', ' '], ['b']] : List (List Char)) ≠ [['a'], ['b']] := by decide

/-- Claim C2 amended -/
theorem claim2_amended (args : List (List Char × List Char × List Char))
    (hw : ∀ a ∈ args, wfArg a) (hne : args ≠ []) :
    parseArgNames (argText args) args.length =
      { segCount := args.length, names := args.map fun a => a.2.1 ++ a.2.2 } ∧
    argNames (argText args) args.length = (args.map fun a => a.2.1 ++ a.2.2) ∧
    ∀ (st : DescriptionStyle) (code : Option (List Char)) (en : Int)
      (vals : List (List Char)) (f : Int → List Char), vals.length = args.length →
      (makeDescription st code en (argText args) vals f).diag = none := by
  have hlen0 : args.length ≠ 0 := fun h => hne (List.length_eq_zero.mp h)
  have hp : parseArgNames (argText args) args.length =
      { segCount := args.length, names := args.map fun a => a.2.1 ++ a.2.2 } := by
    rw [parseArgNames, if_neg hlen0]
    have := scanLoop_args args.length args hw hne 0 [] (by omega)
    simpa using this
  refine ⟨hp, ?_, ?_⟩
  · rw [argNames, hp]
    simp
  · intro st code en vals f hlenv
    rw [makeDescription]
    simp only [hlenv, hp, ne_eq]
    simp

theorem claim2_witness :
    parseArgNames "f, g ".data 2 = { segCount := 2, names := [['f'], ['g', ' ']] } :=
  (claim2_amended [([], ['f'], []), ([' '], ['g'], [' '])] (by decide) (by decide)).1


/-- Claim C3 -/
theorem claim3_arg_rendering :
    (∀ n : List Char, nameShown n = true ↔ n ≠ [] ∧ n.head? ≠ some '\"') ∧
    (∀ (st : DescriptionStyle) (i : Nat) (n v : List Char), nameShown n = true →
      argPiece st i n v =
        (if 0 < i ∨ st ≠ DescriptionStyle.LOG then delimStr else []) ++ (n ++ (sepStr ++ v))) ∧
    (∀ (st : DescriptionStyle) (i : Nat) (n v : List Char), nameShown n = false →
      argPiece st i n v = (if 0 < i ∨ st ≠ DescriptionStyle.LOG then delimStr else []) ++ v) ∧
    (∀ n v : List Char, argPiece DescriptionStyle.LOG 0 n v =
      (if nameShown n then n ++ sepStr else []) ++ v) ∧
    (∀ (st : DescriptionStyle) (i : Nat) (n v : List Char),
      (0 < i ∨ st ≠ DescriptionStyle.LOG) →
      argPiece st i n v = delimStr ++ ((if nameShown n then n ++ sepStr else []) ++ v)) ∧
    (∀ (f : Int → List Char) (en : Int),
      (makeDescription DescriptionStyle.LOG none en "x, y".data ["1".data, "2".data] f).text
        = "x = 1; y = 2".data) ∧
    (∀ (f : Int → List Char) (en : Int),
      (makeDescription DescriptionStyle.ASSERTION (some "x > 0".data) en "x".data
          ["5".data] f).text = "expected x > 0; x = 5".data) := by
  refine ⟨?_, ?_, ?_, ?_, ?_, fun f en => rfl, fun f en => rfl⟩
  · intro n
    cases n with
    | nil => simp [nameShown]
    | cons c l => simp [nameShown, bne_iff_ne]
  · intro st i n v h
    simp [argPiece, h, List.append_assoc]
  · intro st i n v h
    simp [argPiece, h]
  · intro n v
    simp [argPiece]
  · intro st i n v h
    rw [argPiece, if_pos h]

theorem claim3_witness :
    argPiece DescriptionStyle.ASSERTION 0 ['x'] ['5'] =
      (if 0 < 0 ∨ DescriptionStyle.ASSERTION ≠ DescriptionStyle.LOG then delimStr else []) ++
        (['x'] ++ (sepStr ++ ['5'])) :=
  claim3_arg_rendering.2.1 DescriptionStyle.ASSERTION 0 ['x'] ['5'] (by decide)

/-- Claim C4 counterexample -/
theorem claim4_counterexample :
    (makeDescription DescriptionStyle.SYSCALL (some "f(x=1, y)".data) 9 [] []
        (fun _ => ['E'])).text = "1, y): E".data ∧
    "1, y): E".data ≠ "f(x=1, y): E".data := by decide

/-- Claim C4 amended -/
theorem claim4_amended :
    (∀ a rest : List Char, '=' ∉ a → rest.head? ≠ some '=' →
      sysPreprocess (a ++ '=' :: rest) = rest.dropWhile isSpaceC) ∧
    (∀ code : List Char, '=' ∉ code → sysPreprocess code = code) ∧
    (∀ a rest : List Char, '=' ∉ a →
      sysPreprocess (a ++ '=' :: '=' :: rest) = a ++ '=' :: '=' :: rest) ∧
    (∀ (code : List Char) (en : Int) (margs : List Char) (f : Int → List Char),
      (makeDescription DescriptionStyle.SYSCALL (some code) en margs [] f).text
        = sysPreprocess code ++ (colonStr ++ f en)) ∧
    (∀ (f : Int → List Char) (en : Int),
      (makeDescription DescriptionStyle.SYSCALL (some "n = read(fd, buf, len)".data) en
          [] [] f).text = "read(fd, buf, len): ".data ++ f en) := by
  have h4 : ∀ (code : List Char) (en : Int) (margs : List Char) (f : Int → List Char),
      (makeDescription DescriptionStyle.SYSCALL (some code) en margs [] f).text
        = sysPreprocess code ++ (colonStr ++ f en) := by
    intro code en margs f
    simp [makeDescription, descText, headText, effStyle, strippedCode, codeArray,
      sysErrorArray]
  have hfound : ∀ code rest : List Char, findEq code = some rest →
      sysPreprocess code =
        if rest.head? = some '=' then code else rest.dropWhile isSpaceC := by
    intro code rest h
    rw [sysPreprocess, h]
  refine ⟨?_, ?_, ?_, h4, ?_⟩
  · intro a rest ha hr
    rw [hfound _ rest (by rw [findEq_append _ ha]; simp [findEq]), if_neg hr]
  · intro code h
    rw [sysPreprocess, findEq_not_mem h]
  · intro a rest ha
    rw [hfound _ ('=' :: rest) (by rw [findEq_append _ ha]; simp [findEq])]
    simp
  · intro f en
    rw [h4]
    rw [show sysPreprocess "n = read(fd, buf, len)".data = "read(fd, buf, len)".data
      from by decide]
    rw [← List.append_assoc]
    congr 1

theorem claim4_witness :
    sysPreprocess "n = read(fd)".data = "read(fd)".data :=
  claim4_amended.1 "n ".data " read(fd)".data (by decide) (by decide)

/-- Claim C5 -/
theorem claim5_assertion_null (en : Int) (margs : List Char)
    (vals : List (List Char)) (f : Int → List Char) :
    makeDescription DescriptionStyle.ASSERTION none en margs vals f =
      makeDescription DescriptionStyle.LOG none en margs vals f ∧
    (makeDescription DescriptionStyle.ASSERTION none en "x".data ["5".data] f).text
      = "x = 5".data :=
  ⟨rfl, rfl⟩

/-- Claim C6 -/
theorem claim6_mismatch :
    (∀ (st : DescriptionStyle) (code : Option (List Char)) (en : Int)
        (margs : List Char) (vals : List (List Char)) (f : Int → List Char),
      vals ≠ [] → (parseArgNames margs vals.length).segCount ≠ vals.length →
      (makeDescription st code en margs vals f).diag =
          some { file := "logging.c++".data, line := 97,
                 expectedCount := vals.length, rawText := margs } ∧
        ∀ i : Nat, (parseArgNames margs vals.length).names.length ≤ i →
          (argNames margs vals.length).getD i [] = []) ∧
    (∀ (st : DescriptionStyle) (i : Nat) (v : List Char),
      argPiece st i [] v = (if 0 < i ∨ st ≠ DescriptionStyle.LOG then delimStr else []) ++ v) ∧
    (∀ f : Int → List Char,
      makeDescription DescriptionStyle.LOG none 0 ['x'] [['1'], ['2']] f =
        { text := "x = 1; 2".data,
          diag := some { file := "logging.c++".data, line := 97,
                         expectedCount := 2, rawText := ['x'] } }) := by
  refine ⟨?_, ?_, fun f => rfl⟩
  · intro st code en margs vals f h1 h2
    constructor
    · rw [makeDescription]
      simp only
      rw [if_pos ⟨List.length_pos.mpr h1, h2⟩]
    · intro i hi
      rw [argNames]
      exact getD_pad _ _ _ hi
  · intro st i v
    simp [argPiece, nameShown]

theorem claim6_witness :
    (makeDescription DescriptionStyle.LOG none 0 ['x'] [['1'], ['2']] (fun _ => [])).diag =
      some { file := "logging.c++".data, line := 97, expectedCount := 2, rawText := ['x'] } :=
  (claim6_mismatch.1 DescriptionStyle.LOG none 0 ['x'] [['1'], ['2']] (fun _ => [])
    (by decide) (by decide)).1

/-- Claim C7 -/
theorem claim7_fault_destructor (e : Exception) :
    Fault.destructEvents { exception := some e } = [SinkEvent.recoverable e] ∧
    (Fault.destructEvents { exception := some e }).count (SinkEvent.recoverable e) = 1 ∧
    Fault.destructEvents { exception := none } = [] := by
  refine ⟨rfl, ?_, rfl⟩
  simp [Fault.destructEvents]

/-- Claim C8 -/
theorem claim8_fault_fatal (fa : Fault) (e : Exception) (h : fa.exception = some e) :
    fa.fatalRun = { events := [SinkEvent.fatalExc e, SinkEvent.aborted],
                    returnsToCaller := false } ∧
    fa.fatalRun.events.count (SinkEvent.fatalExc e) = 1 ∧
    fa.fatalRun.events.getLast? = some SinkEvent.aborted ∧
    fa.fatalRun.returnsToCaller = false := by
  obtain ⟨exc⟩ := fa
  simp only at h
  subst h
  refine ⟨rfl, ?_, rfl, rfl⟩
  simp [Fault.fatalRun]

theorem claim8_witness :
    Fault.fatalRun { exception := some sampleExc } =
      { events := [SinkEvent.fatalExc sampleExc, SinkEvent.aborted],
        returnsToCaller := false } :=
  (claim8_fault_fatal { exception := some sampleExc } sampleExc rfl).1

/-- Claim C9 -/
theorem claim9_context_chain (active : List ContextFrame) (fr : ContextFrame)
    (e : Exception) (t fx dx : List Char) (lx : Int) :
    (Context.construct active fr).next = active ∧
    Context.onRecoverableException (Context.construct active fr) e =
      (active, Exception.wrapContext e fr.file fr.line
        (descText DescriptionStyle.LOG none 0 fr.macroArgs fr.argValues fun _ => [])) ∧
    Context.onFatalException (Context.construct active fr) e =
      (active, Exception.wrapContext e fr.file fr.line
        (descText DescriptionStyle.LOG none 0 fr.macroArgs fr.argValues fun _ => [])) ∧
    Context.logMessage (Context.construct active fr) t = (active, t) ∧
    (Exception.wrapContext e fx lx dx).contexts =
      e.contexts ++ [{ file := fx, line := lx, description := dx }] :=
  ⟨rfl, rfl, rfl, rfl, rfl⟩

/-- Claim C10 -/
theorem claim10_size_eq_fill (style : DescriptionStyle) (code : Option (List Char))
    (en : Int) (margs : List Char) (vals : List (List Char)) (f : Int → List Char) :
    descSize style code en margs vals f = (descText style code en margs vals f).length := by
  rw [descSize, descText]
  simp only [List.length_append, List.length_flatten, List.map_map]
  rw [headText_length]
  congr 1
  apply congrArg List.sum
  apply List.map_congr_left
  intro i _
  simp [Function.comp, argPiece_length]

end kj
